import Mathlib

/-
  Verification development for the salesforce-cpq-toolkit relay/client core.

  Character data is modelled as lists of Unicode code points (`List Nat`),
  so that the ASCII-level behaviour of the JavaScript string primitives
  (`String.prototype.replace`, `endsWith`, URL parsing and serialization,
  `encodeURIComponent`, `decodeURIComponent`) can be embedded executably.
-/

set_option maxHeartbeats 1000000
set_option maxRecDepth 4096

deriving instance DecidableEq for Except

namespace CPQ

/-- Code points of a string literal; all concrete character data in this
development is written through this helper. -/
def codes (s : String) : List Nat := s.data.map Char.toNat

/-- ASCII lower-casing of one code point, the canonicalization the WHATWG host
parser applies to ASCII hostnames (and the URL parser to schemes). -/
def lowerCode (n : Nat) : Nat := if 65 ≤ n ∧ n ≤ 90 then n + 32 else n

/-- ASCII letter. -/
def isAlphaCode (n : Nat) : Bool := (65 ≤ n && n ≤ 90) || (97 ≤ n && n ≤ 122)

/-- ASCII digit. -/
def isDigitCode (n : Nat) : Bool := 48 ≤ n && n ≤ 57

/-- Characters allowed after the first character of a URL scheme. -/
def isSchemeCode (n : Nat) : Bool := isAlphaCode n || isDigitCode n || n = 43 || n = 45 || n = 46

/-- Characters that terminate the host component of a URL: `/`, `?`, `#`. -/
def isHostEndCode (n : Nat) : Bool := n = 47 || n = 63 || n = 35

/-- Split a list at its first colon (code 58): `splitAtColon s = some (a, b)`
iff `s = a ++ [58] ++ b` with no colon in `a`. -/
def splitAtColon : List Nat → Option (List Nat × List Nat)
  | [] => none
  | c :: cs =>
    if c = 58 then some ([], cs)
    else (splitAtColon cs).map fun p => (c :: p.1, p.2)

/-- Consume host characters until a host-terminating character (or the end);
returns the host and the unconsumed remainder. -/
def takeHost : List Nat → List Nat × List Nat
  | [] => ([], [])
  | c :: cs =>
    if isHostEndCode c then ([], c :: cs)
    else
      let p := takeHost cs
      (c :: p.1, p.2)

/-- Serialization of the part after the host: an empty path serializes as `/`,
and a path-less query/fragment gets `/` prepended, as `URL.prototype.toString`
does for special schemes. -/
def canonTail (t : List Nat) : List Nat :=
  match t with
  | [] => [47]
  | c :: cs => if c = 47 then c :: cs else 47 :: c :: cs

/-- The slice of a WHATWG URL record that `normalizeToMyDomain` observes:
scheme, host, and everything after the host (path, query, fragment). -/
structure URLRec where
  scheme : List Nat
  host : List Nat
  tail : List Nat
deriving DecidableEq

/-- A valid URL scheme: nonempty, first character a letter, rest scheme characters. -/
def validScheme (s : List Nat) : Bool :=
  match s with
  | [] => false
  | c :: cs => isAlphaCode c && cs.all isSchemeCode

/-- The slice of the `new URL` parser that the repository's code exercises:
`scheme://host<tail>` with scheme and host ASCII-lower-cased and the tail
canonicalized to start with `/`.  Inputs without a `scheme://host` shape
(including relative paths such as Salesforce `nextRecordsUrl` values) fail to
parse, which in the source raises and is caught. -/
def parseURL (s : List Nat) : Option URLRec :=
  match splitAtColon s with
  | none => none
  | some (schemeRaw, rest) =>
    if validScheme schemeRaw then
      match rest with
      | 47 :: 47 :: rest2 =>
        if (takeHost rest2).1 = [] then none
        else some ⟨schemeRaw.map lowerCode, (takeHost rest2).1.map lowerCode,
          canonTail (takeHost rest2).2⟩
      | _ => none
    else none

/-- `URL.prototype.toString` on the modelled record. -/
def serializeURL (u : URLRec) : List Nat :=
  u.scheme ++ [58, 47, 47] ++ u.host ++ u.tail

/-- First-occurrence split: `splitFirst pat s = some (p, q)` iff
`s = p ++ pat ++ q` at the first occurrence of `pat` in `s`. -/
def splitFirst (pat : List Nat) : List Nat → Option (List Nat × List Nat)
  | [] => if pat.isEmpty then some ([], []) else none
  | c :: cs =>
    if pat.isPrefixOf (c :: cs) then some ([], (c :: cs).drop pat.length)
    else (splitFirst pat cs).map fun p => (c :: p.1, p.2)

/-- `String.prototype.replace` with a string pattern: replaces the FIRST
occurrence of `pat` (not necessarily a terminal one), or returns `s`
unchanged when `pat` does not occur. -/
def replaceFirst (pat rep s : List Nat) : List Nat :=
  match splitFirst pat s with
  | some p => p.1 ++ rep ++ p.2
  | none => s

/-- `String.prototype.endsWith` with a string argument. -/
def endsWith (pat s : List Nat) : Bool := pat.reverse.isPrefixOf s.reverse

/-- The Lightning-experience hostname suffix tested by `normalizeToMyDomain`. -/
def lightningSuffix : List Nat := codes ".lightning.force.com"

/-- The canonical API hostname suffix substituted by `normalizeToMyDomain`. -/
def mySuffix : List Nat := codes ".my.salesforce.com"

/-- `normalizeToMyDomain` (src/tools/sfdc-api.js lines 92-102, identical copy in
src/unnamed/part_000 lines 112-126): parse the URL; if the hostname ends with
`.lightning.force.com`, replace the first occurrence of that suffix with
`.my.salesforce.com`; return the serialized URL; on a parse failure return the
input unchanged. -/
def normalizeToMyDomain (s : List Nat) : List Nat :=
  match parseURL s with
  | none => s
  | some u =>
    let host :=
      if endsWith lightningSuffix u.host
      then replaceFirst lightningSuffix mySuffix u.host
      else u.host
    serializeURL ⟨u.scheme, host, u.tail⟩

/-! Canonical URL records: the invariant satisfied by every `parseURL` output,
under which serialization re-parses to the same record. -/

structure Canon (u : URLRec) : Prop where
  scheme_valid : validScheme u.scheme = true
  scheme_lower : u.scheme.map lowerCode = u.scheme
  host_ne : u.host ≠ []
  host_chars : ∀ c ∈ u.host, isHostEndCode c = false
  host_lower : u.host.map lowerCode = u.host
  tail_head : ∃ cs, u.tail = 47 :: cs

/-- True when the first occurrence of the Lightning suffix in `host` (if any) is
terminal, i.e. nothing follows it; on such hosts `String.prototype.replace`
genuinely rewrites the suffix. -/
def terminalOnly (host : List Nat) : Bool :=
  match splitFirst lightningSuffix host with
  | some q => q.2.isEmpty
  | none => true

/-- True on inputs where the single rewrite pass of `normalizeToMyDomain`
reaches a fixed point: malformed inputs, URLs whose hostname does not end with
the Lightning suffix (no rewrite happens at all), and URLs whose hostname's
first Lightning-suffix occurrence is terminal (the rewrite genuinely replaces
the ending).  The only excluded inputs are hostnames that end with the suffix
while containing an earlier occurrence of it. -/
def idemSafe (s : List Nat) : Bool :=
  match parseURL s with
  | none => true
  | some u => !(endsWith lightningSuffix u.host) || terminalOnly u.host

/-! The REST client: constructor, stored origin, base URL
(src/tools/sfdc-api.js lines 9-18). -/

/-- `orgOrigin.replace(/\/$/, "")`: removes one trailing slash when present. -/
def stripTrailingSlash (s : List Nat) : List Nat :=
  match s.getLast? with
  | some 47 => s.dropLast
  | _ => s

/-- The state of a `SalesforceAPI` instance; no method ever reassigns either field. -/
structure SalesforceAPI where
  orgOrigin : List Nat
  apiVersion : List Nat
deriving DecidableEq

/-- `SalesforceAPI.constructor` (src/tools/sfdc-api.js lines 10-14): a falsy
(empty/missing) `orgOrigin` throws; otherwise the stored origin is
`normalizeToMyDomain(orgOrigin.replace(/\/$/, ""))` and the API version is the
fixed constant `v59.0`. -/
def mkSalesforceAPI (orgOrigin : List Nat) : Except (List Nat) SalesforceAPI :=
  if orgOrigin = [] then .error (codes "orgOrigin is required")
  else .ok ⟨normalizeToMyDomain (stripTrailingSlash orgOrigin), codes "v59.0"⟩

/-- `SalesforceAPI.baseUrl` (src/tools/sfdc-api.js lines 16-18). -/
def baseUrl (api : SalesforceAPI) : List Nat :=
  api.orgOrigin ++ codes "/services/data/" ++ api.apiVersion

/-! The field-type formatter (src/tools/sfdc-api.js lines 111-127). -/

/-- Decimal digits of a natural number, as code points. -/
def natCodes (n : Nat) : List Nat := codes (toString n)

/-- `formatFieldType` (src/tools/sfdc-api.js lines 111-127).  The numeric
describe attributes `length`, `precision`, `scale` are modelled as `Nat`;
JavaScript truthiness makes the value `0` (like `undefined`) take the
parameterless branch.  A missing/empty type code is modelled as `[]`, for which
the default branch's `type || "Unknown"` yields `"Unknown"`. -/
def formatFieldType (type : List Nat) (length precision scale : Nat) : List Nat :=
  if type = codes "string" then
    (if length ≠ 0 then codes "Text(" ++ natCodes length ++ codes ")" else codes "Text")
  else if type = codes "textarea" then codes "Text Area"
  else if type = codes "picklist" then codes "Picklist"
  else if type = codes "multipicklist" then codes "Multi-Select Picklist"
  else if type = codes "boolean" then codes "Checkbox"
  else if type = codes "double" then
    (if precision ≠ 0 then
      codes "Number(" ++ natCodes precision ++ codes "," ++ natCodes scale ++ codes ")"
    else codes "Number")
  else if type = codes "currency" then codes "Currency"
  else if type = codes "percent" then codes "Percent"
  else if type = codes "date" then codes "Date"
  else if type = codes "datetime" then codes "Date/Time"
  else if type = codes "reference" then codes "Lookup"
  else if type = codes "id" then codes "ID"
  else if type ≠ [] then type else codes "Unknown"

/-- The type codes with dedicated switch cases in `formatFieldType`. -/
def knownTypeCodes : List (List Nat) :=
  [codes "string", codes "textarea", codes "picklist", codes "multipicklist",
   codes "boolean", codes "double", codes "currency", codes "percent",
   codes "date", codes "datetime", codes "reference", codes "id"]

/-! `encodeURIComponent` and the paginated `query` loop
(src/tools/sfdc-api.js lines 52-63 and 69-81). -/

/-- Upper-case hex digit code point. -/
def hexDigitU (n : Nat) : Nat := if n < 10 then 48 + n else 55 + n

/-- UTF-8 encoding of one code point. -/
def utf8Encode (n : Nat) : List Nat :=
  if n < 128 then [n]
  else if n < 2048 then [192 + n / 64, 128 + n % 64]
  else if n < 65536 then [224 + n / 4096, 128 + (n / 64) % 64, 128 + n % 64]
  else [240 + n / 262144, 128 + (n / 4096) % 64, 128 + (n / 64) % 64, 128 + n % 64]

/-- The code points `encodeURIComponent` leaves unescaped:
letters, digits, `- _ . ! ~ * ' ( )`. -/
def isUnreservedCode (n : Nat) : Bool :=
  isAlphaCode n || isDigitCode n || n = 45 || n = 95 || n = 46 ||
    n = 33 || n = 126 || n = 42 || n = 39 || n = 40 || n = 41

/-- `%HH` escape of one byte. -/
def percentByte (b : Nat) : List Nat := [37, hexDigitU (b / 16), hexDigitU (b % 16)]

/-- `encodeURIComponent`: unreserved code points pass through, every other code
point is UTF-8 encoded and each byte percent-escaped. -/
def encodeURIComponent (s : List Nat) : List Nat :=
  s.flatMap fun c =>
    if isUnreservedCode c then [c] else (utf8Encode c).flatMap percentByte

/-- One page of a query response: `records` and `nextRecordsUrl` may each be
absent (`result.records || []` supplies the default). -/
structure QueryPage (α : Type) where
  records : Option (List α)
  nextRecordsUrl : Option (List Nat)
deriving DecidableEq

/-- The `while (nextUrl)` pagination loop shared by `SalesforceAPI.query` and
`SalesforceAPI.toolingQuery` (src/tools/sfdc-api.js lines 57-61 and 75-79):
while the next-page URL is truthy (present and non-empty), request it after
passing it through `normalizeToMyDomain`, append `page.records || []`, and
continue from `page.nextRecordsUrl`.  `fetch` abstracts `this.request`; `fuel`
bounds the iteration count of the source's unbounded loop, and `none` reports
fuel exhaustion (a chain longer than `fuel`). -/
def queryLoop (fetch : List Nat → QueryPage α) :
    List α → Option (List Nat) → Nat → Option (List α)
  | acc, none, _ => some acc
  | acc, some [], _ => some acc
  | acc, some (c :: url), Nat.succ fuel =>
    queryLoop fetch (acc ++ (fetch (normalizeToMyDomain (c :: url))).records.getD [])
      (fetch (normalizeToMyDomain (c :: url))).nextRecordsUrl fuel
  | _, some (_ :: _), 0 => none

/-- The query resource path with the URL-encoded SOQL text
(src/tools/sfdc-api.js line 54). -/
def queryPath (soql : List Nat) : List Nat := codes "/query/?q=" ++ encodeURIComponent soql

/-- `SalesforceAPI.query` (src/tools/sfdc-api.js lines 52-63): issue the initial
request at the query resource with the URL-encoded SOQL text, then run the
pagination loop starting from `result.records || []` and `result.nextRecordsUrl`. -/
def query (fetch : List Nat → QueryPage α) (soql : List Nat) (fuel : Nat) : Option (List α) :=
  queryLoop fetch ((fetch (queryPath soql)).records.getD [])
    (fetch (queryPath soql)).nextRecordsUrl fuel

/-- A response chain: starting from page `p`, each listed link `(u, q)` says the
current page carries truthy `nextRecordsUrl = u` and fetching the normalized `u`
yields page `q`; the final page's `nextRecordsUrl` is falsy (absent or empty). -/
def chainB [DecidableEq α] (fetch : List Nat → QueryPage α) :
    QueryPage α → List (List Nat × QueryPage α) → Bool
  | p, [] => decide (p.nextRecordsUrl = none) || decide (p.nextRecordsUrl = some [])
  | p, (u, q) :: rest =>
    decide (p.nextRecordsUrl = some u) && decide (u ≠ []) &&
      decide (fetch (normalizeToMyDomain u) = q) && chainB fetch q rest

/-- A two-page mock server: the initial query resource returns records `[1, 2]`
with a continuation URL, the continuation returns `[3]` with none. -/
def twoPageFetch : List Nat → QueryPage Nat := fun url =>
  if url = queryPath (codes "SELECT Id FROM Account") then
    ⟨some [1, 2], some (codes "/services/data/v59.0/query/01g-2000")⟩
  else if url = codes "/services/data/v59.0/query/01g-2000" then ⟨some [3], none⟩
  else ⟨none, none⟩

/-! HTTP status interpretation of `handleProxyRequest`
(src/unnamed/part_000 lines 50-68). -/

/-- The slice of a parsed JSON value that the error path inspects: an object
with its optional `message` property, an array of values, or anything else
(whose `.message` access yields `undefined`). -/
inductive Json where
  | obj (message : Option (List Nat)) : Json
  | arr (elems : List Json) : Json
  | other : Json

/-- `e.message`: the `message` property, absent on non-objects. -/
def jsonMessage : Json → Option (List Nat)
  | .obj m => m
  | _ => none

/-- `errJson.map((e) => e.message).join(", ")`: `Array.prototype.join` renders
`undefined` elements as the empty string. -/
def joinMessages (es : List Json) : List Nat :=
  ((es.map fun e => (jsonMessage e).getD []).intersperse (codes ", ")).flatten

/-- The 401 error message of `handleProxyRequest` (src/unnamed/part_000 line 51). -/
def authExpiredMsg : List Nat :=
  codes "Unauthorized. Your Salesforce session may have expired. Please log in again."

/-- The status interpretation of `handleProxyRequest` (src/unnamed/part_000
lines 50-68): status 401 throws the authentication-expired message; any other
non-2xx status (`response.ok` is `200 ≤ status ≤ 299`) throws the parsed error
body's message(s) — joined with `", "` for an array body, `message || "HTTP
<status>"` for any other parsed body, `"HTTP <status>"` when the body is not
parseable JSON (`errBody = none`); status 204 returns the null payload; any
other 2xx returns the parsed data. -/
def interpretResponse (status : Nat) (errBody : Option Json) (okData : Json) :
    Except (List Nat) (Option Json) :=
  if status = 401 then .error authExpiredMsg
  else if ¬ (200 ≤ status ∧ status ≤ 299) then
    .error
      (match errBody with
      | none => codes "HTTP " ++ natCodes status
      | some (.arr es) => joinMessages es
      | some j =>
        match jsonMessage j with
        | some m => if m ≠ [] then m else codes "HTTP " ++ natCodes status
        | none => codes "HTTP " ++ natCodes status)
  else if status = 204 then .ok none
  else .ok (some okData)

/-! The session-cookie locator `getSessionCookie`
(src/unnamed/part_000 lines 71-103). -/

/-- A browser cookie as far as the locator observes it. -/
structure Cookie where
  value : List Nat
deriving DecidableEq

/-- The `chrome.cookies` capability the privileged context holds: `get` by
`{url, name}` (an absent cookie is `ok none`; a rejected call is `error`),
`getAll` by `{domain, name}`. -/
structure CookieAPI where
  get : List Nat → List Nat → Except (List Nat) (Option Cookie)
  getAll : List Nat → List Nat → Except (List Nat) (List Cookie)

/-- The session-token cookie name. -/
def sidName : List Nat := codes "sid"

/-- `getSessionCookie` (src/unnamed/part_000 lines 71-103).  Faithful to the
source: the loop iterates over `domainsToTry = [domain, "." + domain]`, but its
body calls `chrome.cookies.get({url: "https://" + domain, name: "sid"})` using
the OUTER `domain` variable — the loop variable `d` is unused, so both
iterations perform the same exact-host lookup and the leading-dot variant is
never queried.  A thrown lookup is caught and the loop continues; afterwards
`getAll({domain, name: "sid"})` returns the first cookie's value (without an
emptiness check); every failure path returns `null`. -/
def getSessionCookie (api : CookieAPI) (domain : List Nat) : Option (List Nat) :=
  let domainsToTry := [domain, codes "." ++ domain]
  let loopResult := domainsToTry.foldl
    (fun acc _d =>
      match acc with
      | some v => some v
      | none =>
        match api.get (codes "https://" ++ domain) sidName with
        | .ok (some c) => if c.value ≠ [] then some c.value else none
        | _ => none)
    none
  match loopResult with
  | some v => some v
  | none =>
    match api.getAll domain sidName with
    | .ok (c :: _) => some c.value
    | _ => none

/-- A cookie store in which the session cookie is visible only to the
leading-dot lookup `https://.acme.my.salesforce.com` that the locator's loop was
written to perform, while the exact-host lookup and the broad search find
nothing. -/
def dotOnlyCookieAPI : CookieAPI where
  get := fun url _name =>
    if url = codes "https://.acme.my.salesforce.com" then .ok (some ⟨codes "00Dabc"⟩)
    else .ok none
  getAll := fun _domain _name => .ok []

/-! The Relay Channel: the `sendMessage` callback of `SalesforceAPI.request`
(src/tools/sfdc-api.js lines 23-49) and the background listener
(src/unnamed/part_000 lines 13-20). -/

/-- The response value sent back by the background listener:
`{success: true, data}` or `{success: false, error}` (the error field may be
absent). -/
inductive ProxyResult where
  | success (data : Option Json) : ProxyResult
  | failure (error : Option (List Nat)) : ProxyResult

/-- The event with which Chrome invokes the `sendMessage` callback: either
`chrome.runtime.lastError` is set — as Chrome guarantees when the receiving end
does not exist or the privileged context terminates before calling
`sendResponse` (the response argument is then absent) — or a response value
(possibly `undefined`) is delivered. -/
inductive CallbackEvent where
  | lastErr (msg : List Nat) : CallbackEvent
  | delivered (response : Option ProxyResult) : CallbackEvent

/-- What one invocation of the promise executor's callback does to the pending
promise.  `pending` would model an executor path that calls neither `resolve`
nor `reject`; the early `return` after each settling call makes the callback
settle at most once per invocation. -/
inductive Outcome where
  | pending : Outcome
  | resolved (data : Option Json) : Outcome
  | rejected (msg : List Nat) : Outcome

/-- The callback body of `SalesforceAPI.request` (src/tools/sfdc-api.js lines
33-47): reject with `lastError.message`; reject `"No response from background
worker."` when the response is absent; reject `response.error || "Unknown
error"` when `success` is false; otherwise resolve with `response.data`. -/
def requestCallback : CallbackEvent → Outcome
  | .lastErr msg => .rejected msg
  | .delivered none => .rejected (codes "No response from background worker.")
  | .delivered (some (.failure err)) =>
    .rejected
      (match err with
      | some m => if m ≠ [] then m else codes "Unknown error"
      | none => codes "Unknown error")
  | .delivered (some (.success data)) => .resolved data

/-- The background listener (src/unnamed/part_000 lines 13-20): every settled
`handleProxyRequest` promise is answered through `sendResponse`, success and
failure alike. -/
def listenerRespond (r : Except (List Nat) (Option Json)) : ProxyResult :=
  match r with
  | .ok d => .success d
  | .error m => .failure (some m)

/-- Whether an event models the privileged side being unreachable or terminating
before responding (Chrome then sets `lastError` and delivers no response). -/
def isDisconnect : CallbackEvent → Bool
  | .lastErr _ => true
  | .delivered none => true
  | _ => false

/-! Batch error behaviour: the twin-field scan (src/tools/twin-field-explorer.js
lines 68-93) and the quote-preview fetch block (src/tools/sku-quote-explorer.js
lines 200-298). -/

/-- A describe result as far as the scan consumes it. -/
structure DescribeResult (α : Type) where
  fields : List α
deriving DecidableEq

/-- `runScan` (src/tools/twin-field-explorer.js lines 68-93): both `describe`
calls and the pair computation run inside ONE try/catch; any failure aborts the
whole scan with that error (`showError`) and yields no results.  The pair
computation `computeTwinPairs` is abstracted as `compute`; the claim concerns
only the error flow. -/
def runScan (describe : List Nat → Except (List Nat) (DescribeResult α))
    (compute : List α → List α → List β) : Except (List Nat) (List β) := do
  let ql ← describe (codes "SBQQ__QuoteLine__c")
  let oli ← describe (codes "OpportunityLineItem")
  pure (compute ql.fields oli.fields)

/-- `fetchPriceRules` / `fetchProductRules` / `fetchApprovalRules`
(src/tools/sku-quote-explorer.js lines 251-298): the whole query runs in a
try/catch whose catch returns the empty list. -/
def fetchRuleList (q : Except (List Nat) (List α)) : List α :=
  match q with
  | .ok rs => rs
  | .error _ => []

/-- `fetchPricebookEntries` (src/tools/sku-quote-explorer.js lines 227-249): on
failure returns the stub entries built from the selected products. -/
def fetchPricebookEntries (q : Except (List Nat) (List α)) (stub : List α) : List α :=
  match q with
  | .ok rs => rs
  | .error _ => stub

/-- The parallel fetch block of `buildQuotePreview`
(src/tools/sku-quote-explorer.js lines 200-208): `Promise.all` of the four
fetchers, each of which catches its own failure internally, so the block always
resolves with the four component results. -/
def buildQuotePreviewFetches (pbe : Except (List Nat) (List α)) (stub : List α)
    (pr prodr ar : Except (List Nat) (List β)) :
    List α × List β × List β × List β :=
  (fetchPricebookEntries pbe stub, fetchRuleList pr, fetchRuleList prodr, fetchRuleList ar)

/-- A describe oracle whose second request (the 2nd describe the scan makes)
throws while the first succeeds. -/
def failingDescribe : List Nat → Except (List Nat) (DescribeResult Nat) := fun name =>
  if name = codes "OpportunityLineItem" then .error (codes "boom")
  else .ok ⟨[1]⟩

/-! `getAPIFromUrl` (src/tools/sfdc-api.js lines 104-109): `URLSearchParams`
extraction of the `org` parameter followed by `decodeURIComponent` and the
client constructor. -/

/-- Value of one hex digit code point. -/
def hexVal (n : Nat) : Option Nat :=
  if 48 ≤ n ∧ n ≤ 57 then some (n - 48)
  else if 65 ≤ n ∧ n ≤ 70 then some (n - 55)
  else if 97 ≤ n ∧ n ≤ 102 then some (n - 87)
  else none

/-- The lenient `application/x-www-form-urlencoded` byte decoding used by
`URLSearchParams`: `+` becomes a space, `%HH` with two hex digits becomes the
byte, and a `%` NOT followed by two hex digits is passed through verbatim
(URLSearchParams never throws). -/
def formDecodeBytes : List Nat → List Nat
  | [] => []
  | 43 :: rest => 32 :: formDecodeBytes rest
  | 37 :: h1 :: h2 :: rest =>
    match hexVal h1, hexVal h2 with
    | some v1, some v2 => (16 * v1 + v2) :: formDecodeBytes rest
    | _, _ => 37 :: formDecodeBytes (h1 :: h2 :: rest)
  | c :: rest => c :: formDecodeBytes rest

/-- Lenient UTF-8 decoding of a byte sequence to code points, invalid sequences
becoming the replacement character U+FFFD (the WHATWG decoder; the replacement
positions for truncated sequences are approximated, which no ASCII input — the
range this development exercises — can observe). -/
def utf8DecodeLenient : List Nat → List Nat
  | [] => []
  | b :: bs =>
    if b < 128 then b :: utf8DecodeLenient bs
    else if 194 ≤ b ∧ b ≤ 223 then
      match bs with
      | b2 :: bs2 =>
        if 128 ≤ b2 ∧ b2 ≤ 191 then ((b - 192) * 64 + (b2 - 128)) :: utf8DecodeLenient bs2
        else 65533 :: utf8DecodeLenient (b2 :: bs2)
      | [] => [65533]
    else if 224 ≤ b ∧ b ≤ 239 then
      match bs with
      | b2 :: b3 :: bs3 =>
        if 128 ≤ b2 ∧ b2 ≤ 191 ∧ 128 ≤ b3 ∧ b3 ≤ 191 then
          ((b - 224) * 4096 + (b2 - 128) * 64 + (b3 - 128)) :: utf8DecodeLenient bs3
        else 65533 :: utf8DecodeLenient (b2 :: b3 :: bs3)
      | [b2] => 65533 :: utf8DecodeLenient [b2]
      | [] => [65533]
    else if 240 ≤ b ∧ b ≤ 244 then
      match bs with
      | b2 :: b3 :: b4 :: bs4 =>
        if 128 ≤ b2 ∧ b2 ≤ 191 ∧ 128 ≤ b3 ∧ b3 ≤ 191 ∧ 128 ≤ b4 ∧ b4 ≤ 191 then
          ((b - 240) * 262144 + (b2 - 128) * 4096 + (b3 - 128) * 64 + (b4 - 128)) ::
            utf8DecodeLenient bs4
        else 65533 :: utf8DecodeLenient (b2 :: b3 :: b4 :: bs4)
      | [b2, b3] => 65533 :: utf8DecodeLenient [b2, b3]
      | [b2] => 65533 :: utf8DecodeLenient [b2]
      | [] => [65533]
    else 65533 :: utf8DecodeLenient bs

/-- One `URLSearchParams` component: form-urlencoded bytes decoded to code points. -/
def formDecode (s : List Nat) : List Nat := utf8DecodeLenient (formDecodeBytes s)

/-- Split one `name=value` piece at its FIRST `=`; a piece without `=` has the
empty value. -/
def splitEqFirst (piece : List Nat) : List Nat × List Nat :=
  match splitFirst [61] piece with
  | some p => (p.1, p.2)
  | none => (piece, [])

/-- `new URLSearchParams(window.location.search).get(name)`: strip a leading
`?`, split on `&` skipping empty segments, split each piece at its first `=`,
form-decode names and values, and return the FIRST value whose name matches
(`null` when none does). -/
def getParam (name : List Nat) (search : List Nat) : Option (List Nat) :=
  let body :=
    match search with
    | 63 :: rest => rest
    | s => s
  let pairs := (List.splitOn 38 body).filter (fun p => p ≠ [])
  ((pairs.map fun piece =>
      (formDecode (splitEqFirst piece).1, formDecode (splitEqFirst piece).2)).find?
    (fun kv => kv.1 = name)).map Prod.snd

/-- One escape-sequence group at the head of the input (the characters after a
`%`): reads the hex pair, and for a multi-byte UTF-8 lead reads the required
continuation escape sequences, with the standard range, overlong and surrogate
checks.  Returns the decoded code point and the unconsumed remainder; `none`
models the thrown `URIError`. -/
def decodeEscape : List Nat → Option (Nat × List Nat)
  | h1 :: h2 :: rest =>
    match hexVal h1, hexVal h2 with
    | some v1, some v2 =>
      if 16 * v1 + v2 < 128 then some (16 * v1 + v2, rest)
      else if 194 ≤ 16 * v1 + v2 ∧ 16 * v1 + v2 ≤ 223 then
        match rest with
        | c3 :: h3 :: h4 :: rest2 =>
          match hexVal h3, hexVal h4 with
          | some v3, some v4 =>
            if c3 = 37 ∧ 128 ≤ 16 * v3 + v4 ∧ 16 * v3 + v4 ≤ 191 then
              some ((16 * v1 + v2 - 192) * 64 + (16 * v3 + v4 - 128), rest2)
            else none
          | _, _ => none
        | _ => none
      else if 224 ≤ 16 * v1 + v2 ∧ 16 * v1 + v2 ≤ 239 then
        match rest with
        | c3 :: h3 :: h4 :: c5 :: h5 :: h6 :: rest2 =>
          match hexVal h3, hexVal h4, hexVal h5, hexVal h6 with
          | some v3, some v4, some v5, some v6 =>
            if c3 = 37 ∧ c5 = 37 ∧
                128 ≤ 16 * v3 + v4 ∧ 16 * v3 + v4 ≤ 191 ∧
                128 ≤ 16 * v5 + v6 ∧ 16 * v5 + v6 ≤ 191 ∧
                (16 * v1 + v2 ≠ 224 ∨ 160 ≤ 16 * v3 + v4) ∧
                (16 * v1 + v2 ≠ 237 ∨ 16 * v3 + v4 ≤ 159) then
              some ((16 * v1 + v2 - 224) * 4096 + (16 * v3 + v4 - 128) * 64 +
                (16 * v5 + v6 - 128), rest2)
            else none
          | _, _, _, _ => none
        | _ => none
      else if 240 ≤ 16 * v1 + v2 ∧ 16 * v1 + v2 ≤ 244 then
        match rest with
        | c3 :: h3 :: h4 :: c5 :: h5 :: h6 :: c7 :: h7 :: h8 :: rest2 =>
          match hexVal h3, hexVal h4, hexVal h5, hexVal h6, hexVal h7, hexVal h8 with
          | some v3, some v4, some v5, some v6, some v7, some v8 =>
            if c3 = 37 ∧ c5 = 37 ∧ c7 = 37 ∧
                128 ≤ 16 * v3 + v4 ∧ 16 * v3 + v4 ≤ 191 ∧
                128 ≤ 16 * v5 + v6 ∧ 16 * v5 + v6 ≤ 191 ∧
                128 ≤ 16 * v7 + v8 ∧ 16 * v7 + v8 ≤ 191 ∧
                (16 * v1 + v2 ≠ 240 ∨ 144 ≤ 16 * v3 + v4) ∧
                (16 * v1 + v2 ≠ 244 ∨ 16 * v3 + v4 ≤ 143) then
              some ((16 * v1 + v2 - 240) * 262144 + (16 * v3 + v4 - 128) * 4096 +
                (16 * v5 + v6 - 128) * 64 + (16 * v7 + v8 - 128), rest2)
            else none
          | _, _, _, _, _, _ => none
        | _ => none
      else none
    | _, _ => none
  | _ => none

/-- The decoding loop: a `%` starts an escape group handled by `decodeEscape`,
any other code point passes through.  `fuel` only bounds the recursion for the
termination checker; every step consumes at least one input element while
spending exactly one fuel, so with `fuel = s.length` (as `decodeURIComponent`
supplies) the fuel-exhaustion branch is unreachable. -/
def decodeURILoop (fuel : Nat) (s : List Nat) : Option (List Nat) :=
  match fuel, s with
  | _, [] => some []
  | 0, _ :: _ => none
  | Nat.succ fuel, c :: cs =>
    if c = 37 then
      match decodeEscape cs with
      | some (cp, rest2) => (decodeURILoop fuel rest2).map (cp :: ·)
      | none => none
    else (decodeURILoop fuel cs).map (c :: ·)

/-- The strict ECMAScript `decodeURIComponent`: `%HH` escape sequences are
decoded as UTF-8 — a multi-byte lead requires its continuation bytes to be
escape sequences as well — and any malformed escape throws a `URIError`
(`none`); all other code points pass through. -/
def decodeURIComponent (s : List Nat) : Option (List Nat) :=
  decodeURILoop s.length s

/-- `getAPIFromUrl` (src/tools/sfdc-api.js lines 104-109): read the `org` query
parameter; a missing or empty parameter returns `null` (no client, no throw);
otherwise construct the client from `decodeURIComponent(org)`, propagating a
`URIError` from a malformed escape or the constructor's own throw. -/
def getAPIFromUrl (search : List Nat) : Except (List Nat) (Option SalesforceAPI) :=
  match getParam (codes "org") search with
  | none => .ok none
  | some v =>
    if v = [] then .ok none
    else
      match decodeURIComponent v with
      | none => .error (codes "URIError: URI malformed")
      | some d => (mkSalesforceAPI d).map some

/-! Theorems. -/

/-! Character-class and lower-casing facts. -/

theorem lowerCode_idem (n : Nat) : lowerCode (lowerCode n) = lowerCode n := by
  simp only [lowerCode]
  split_ifs <;> omega

theorem isAlphaCode_lower {n : Nat} (h : isAlphaCode n = true) :
    isAlphaCode (lowerCode n) = true := by
  simp only [isAlphaCode, lowerCode, Bool.or_eq_true, Bool.and_eq_true, decide_eq_true_eq] at h ⊢
  split_ifs <;> omega

theorem isSchemeCode_lower {n : Nat} (h : isSchemeCode n = true) :
    isSchemeCode (lowerCode n) = true := by
  simp only [isSchemeCode, isAlphaCode, isDigitCode, lowerCode, Bool.or_eq_true,
    Bool.and_eq_true, decide_eq_true_eq] at h ⊢
  split_ifs <;> omega

theorem isHostEndCode_lower_false {n : Nat} (h : isHostEndCode n = false) :
    isHostEndCode (lowerCode n) = false := by
  simp only [isHostEndCode, lowerCode, Bool.or_eq_false_iff, decide_eq_false_iff_not] at h ⊢
  split_ifs <;> omega

theorem isAlphaCode_ne_colon {n : Nat} (h : isAlphaCode n = true) : n ≠ 58 := by
  simp only [isAlphaCode, Bool.or_eq_true, Bool.and_eq_true, decide_eq_true_eq] at h
  omega

theorem isSchemeCode_ne_colon {n : Nat} (h : isSchemeCode n = true) : n ≠ 58 := by
  simp only [isSchemeCode, isAlphaCode, isDigitCode, Bool.or_eq_true, Bool.and_eq_true,
    decide_eq_true_eq] at h
  omega

theorem map_lowerCode_idem (l : List Nat) :
    (l.map lowerCode).map lowerCode = l.map lowerCode := by
  simp only [List.map_map]
  exact List.map_congr_left fun a _ => lowerCode_idem a

/-! Structure of `splitAtColon`, `takeHost`, `canonTail`, `splitFirst`. -/

theorem splitAtColon_append (a b : List Nat) (h : ∀ c ∈ a, c ≠ 58) :
    splitAtColon (a ++ 58 :: b) = some (a, b) := by
  induction a with
  | nil => simp [splitAtColon]
  | cons c cs ih =>
    have hc : c ≠ 58 := h c (by simp)
    simp only [List.cons_append, splitAtColon, if_neg hc]
    rw [show cs.append (58 :: b) = cs ++ 58 :: b from rfl,
      ih fun x hx => h x (by simp [hx])]
    rfl

theorem takeHost_append (h t : List Nat) (hh : ∀ c ∈ h, isHostEndCode c = false) :
    takeHost (h ++ 47 :: t) = (h, 47 :: t) := by
  induction h with
  | nil => simp [takeHost, isHostEndCode]
  | cons c cs ih =>
    have hc : isHostEndCode c = false := hh c (by simp)
    simp only [List.cons_append, takeHost, hc, Bool.false_eq_true, if_false]
    rw [show cs.append (47 :: t) = cs ++ 47 :: t from rfl,
      ih fun x hx => hh x (by simp [hx])]

theorem takeHost_fst_chars (s : List Nat) : ∀ c ∈ (takeHost s).1, isHostEndCode c = false := by
  induction s with
  | nil => simp [takeHost]
  | cons c cs ih =>
    by_cases hc : isHostEndCode c = true
    · simp [takeHost, hc]
    · simp only [Bool.not_eq_true] at hc
      simp only [takeHost, hc, Bool.false_eq_true, if_false]
      intro x hx
      rcases List.mem_cons.mp hx with rfl | hx
      · exact hc
      · exact ih x hx

theorem canonTail_head (t : List Nat) : ∃ cs, canonTail t = 47 :: cs := by
  match t with
  | [] => exact ⟨[], rfl⟩
  | c :: cs =>
    by_cases hc : c = 47
    · subst hc; exact ⟨cs, by simp [canonTail]⟩
    · exact ⟨c :: cs, by simp [canonTail, hc]⟩

theorem splitFirst_eq {pat s p q : List Nat} (h : splitFirst pat s = some (p, q)) :
    s = p ++ pat ++ q := by
  induction s generalizing p q with
  | nil =>
    simp only [splitFirst] at h
    split at h
    · rcases h with ⟨rfl, rfl⟩ | h
      · rename_i hp
        simp only [List.isEmpty_iff] at hp
        simp [hp]
    · exact absurd h (by simp)
  | cons c cs ih =>
    simp only [splitFirst] at h
    split at h
    · rename_i hpre
      simp only [Option.some.injEq, Prod.mk.injEq] at h
      obtain ⟨h1, h2⟩ := h
      subst h1
      subst h2
      obtain ⟨r, hr⟩ := List.isPrefixOf_iff_prefix.mp hpre
      rw [List.nil_append, ← hr, List.drop_left pat r]
    · rcases ho : splitFirst pat cs with _ | ⟨p', q'⟩ <;> rw [ho] at h
      · exact absurd h (by simp)
      · simp only [Option.map_some', Option.some.injEq, Prod.mk.injEq] at h
        obtain ⟨h1, h2⟩ := h
        subst h1
        subst h2
        conv_lhs => rw [ih ho]
        simp

theorem splitFirst_isSome {pat s : List Nat} (hne : pat ≠ []) (h : pat <:+ s) :
    (splitFirst pat s).isSome = true := by
  induction s with
  | nil =>
    have hl := h.length_le
    simp only [List.length_nil, Nat.le_zero, List.length_eq_zero] at hl
    exact absurd hl hne
  | cons c cs ih =>
    simp only [splitFirst]
    split
    · simp
    · rename_i hpre
      rw [Option.isSome_map']
      apply ih
      obtain ⟨r, hr⟩ := h
      cases r with
      | nil =>
        exfalso
        apply hpre
        rw [List.nil_append] at hr
        exact List.isPrefixOf_iff_prefix.mpr (hr ▸ List.prefix_refl pat)
      | cons x r' =>
        injection hr with _ hr'
        exact ⟨r', hr'⟩

/-! `endsWith` agrees with the suffix relation. -/

theorem endsWith_iff {pat s : List Nat} : endsWith pat s = true ↔ pat <:+ s := by
  unfold endsWith
  rw [List.isPrefixOf_iff_prefix, List.reverse_prefix]

theorem endsWith_append_suffix (l pat : List Nat) : endsWith pat (l ++ pat) = true :=
  endsWith_iff.mpr (List.suffix_append l pat)

/-- A hostname ending in `.my.salesforce.com` never ends in `.lightning.force.com`. -/
theorem not_endsWith_lightning (l : List Nat) :
    endsWith lightningSuffix (l ++ mySuffix) = false := by
  by_contra hc
  rw [Bool.not_eq_false, endsWith_iff] at hc
  rcases List.suffix_or_suffix_of_suffix hc (List.suffix_append l mySuffix) with h3 | h3
  · have hl := h3.length_le
    revert hl; decide
  · revert h3; decide

theorem validScheme_map_lower {s : List Nat} (h : validScheme s = true) :
    validScheme (s.map lowerCode) = true := by
  match s with
  | [] => simp [validScheme] at h
  | c :: cs =>
    simp only [validScheme, Bool.and_eq_true, List.all_eq_true] at h
    simp only [List.map_cons, validScheme, Bool.and_eq_true, List.all_eq_true]
    refine ⟨isAlphaCode_lower h.1, ?_⟩
    intro x hx
    obtain ⟨y, hy, rfl⟩ := List.mem_map.mp hx
    exact isSchemeCode_lower (h.2 y hy)

theorem validScheme_no_colon {s : List Nat} (h : validScheme s = true) :
    ∀ c ∈ s, c ≠ 58 := by
  match s with
  | [] => simp
  | c :: cs =>
    simp only [validScheme, Bool.and_eq_true, List.all_eq_true] at h
    intro x hx
    rcases List.mem_cons.mp hx with rfl | hx
    · exact isAlphaCode_ne_colon h.1
    · exact isSchemeCode_ne_colon (h.2 x hx)

theorem parseURL_canon {s : List Nat} {u : URLRec} (h : parseURL s = some u) : Canon u := by
  unfold parseURL at h
  split at h
  · exact absurd h (by simp)
  · split at h
    · rename_i hv
      split at h
      · rename_i rest2 hb
        split at h
        · exact absurd h (by simp)
        · rename_i hne
          simp only [Option.some.injEq] at h
          subst h
          refine ⟨validScheme_map_lower hv, map_lowerCode_idem _, ?_, ?_, map_lowerCode_idem _, ?_⟩
          · simpa [List.map_eq_nil_iff] using hne
          · intro c hc
            obtain ⟨y, hy, rfl⟩ := List.mem_map.mp hc
            exact isHostEndCode_lower_false (takeHost_fst_chars rest2 y hy)
          · exact canonTail_head _
      · exact absurd h (by simp)
    · exact absurd h (by simp)

theorem parseURL_serializeURL {u : URLRec} (hu : Canon u) :
    parseURL (serializeURL u) = some u := by
  obtain ⟨hs, hsl, hne, hhc, hhl, cs, htl⟩ := hu
  have hser : serializeURL u = u.scheme ++ 58 :: (47 :: 47 :: (u.host ++ u.tail)) := by
    simp [serializeURL]
  rw [hser]
  unfold parseURL
  rw [splitAtColon_append _ _ (validScheme_no_colon hs)]
  simp only [hs, if_true]
  rw [htl, takeHost_append _ _ hhc]
  simp only [← htl]
  rw [if_neg hne, hsl, hhl]
  have : canonTail u.tail = u.tail := by rw [htl]; simp [canonTail]
  rw [this]

/-! Branch equations for `normalizeToMyDomain`. -/

theorem normalize_eq_none {s : List Nat} (h : parseURL s = none) :
    normalizeToMyDomain s = s := by
  unfold normalizeToMyDomain
  rw [h]

theorem normalize_eq_some {s : List Nat} {u : URLRec} (hp : parseURL s = some u) :
    normalizeToMyDomain s = serializeURL ⟨u.scheme,
      if endsWith lightningSuffix u.host = true then replaceFirst lightningSuffix mySuffix u.host
      else u.host, u.tail⟩ := by
  unfold normalizeToMyDomain
  rw [hp]

theorem normalize_not_ends {s : List Nat} {u : URLRec} (hp : parseURL s = some u)
    (hend : endsWith lightningSuffix u.host = false) :
    normalizeToMyDomain s = serializeURL u := by
  rw [normalize_eq_some hp, hend]
  simp

theorem normalize_rewrite {s : List Nat} {u : URLRec} {p : List Nat} (hp : parseURL s = some u)
    (hsp : splitFirst lightningSuffix u.host = some (p, [])) :
    normalizeToMyDomain s = serializeURL ⟨u.scheme, p ++ mySuffix, u.tail⟩ := by
  have hhost : u.host = p ++ lightningSuffix := by simpa using splitFirst_eq hsp
  have hend : endsWith lightningSuffix u.host = true := by
    rw [hhost]
    exact endsWith_append_suffix p lightningSuffix
  rw [normalize_eq_some hp, hend]
  simp only [if_true]
  unfold replaceFirst
  rw [hsp]
  simp

/-- The rewritten host record stays canonical, so it serializes and re-parses stably. -/
theorem canon_rewrite {u : URLRec} {p : List Nat} (hc : Canon u)
    (hhost : u.host = p ++ lightningSuffix) :
    Canon ⟨u.scheme, p ++ mySuffix, u.tail⟩ := by
  obtain ⟨hs, hsl, hne, hhc, hhl, cs, htl⟩ := hc
  refine ⟨hs, hsl, ?_, ?_, ?_, ⟨cs, htl⟩⟩
  · show p ++ mySuffix ≠ []
    simp only [ne_eq, List.append_eq_nil]
    intro ⟨_, hm⟩
    revert hm
    decide
  · intro c hcm
    rcases List.mem_append.mp hcm with hcp | hcm2
    · exact hhc c (hhost ▸ List.mem_append.mpr (Or.inl hcp))
    · have hall : mySuffix.all (fun c => !(isHostEndCode c)) = true := by decide
      have := List.all_eq_true.mp hall c hcm2
      simpa using this
  · show (p ++ mySuffix).map lowerCode = p ++ mySuffix
    have hmap : (p.map lowerCode) ++ (lightningSuffix.map lowerCode) = p ++ lightningSuffix := by
      rw [← List.map_append, ← hhost, hhl, hhost]
    obtain ⟨hp1, _⟩ := List.append_inj hmap (by simp)
    rw [List.map_append, hp1]
    congr 1

/-- C4 (amended): `normalizeToMyDomain` returns a malformed (unparseable) input
unchanged; for a parseable URL whose hostname does not end with the Lightning
suffix it returns the URL's canonical serialization — equal to the input exactly
when the input is already in canonical serialized form, but not verbatim in
general; and for a hostname whose first occurrence of the Lightning suffix is
terminal, that suffix is rewritten to the canonical API suffix with the
subdomain prefix preserved verbatim. -/
theorem claim_C4_normalize (s : List Nat) :
    (parseURL s = none → normalizeToMyDomain s = s) ∧
    (∀ u : URLRec, parseURL s = some u → endsWith lightningSuffix u.host = false →
      normalizeToMyDomain s = serializeURL u) ∧
    (∀ (u : URLRec) (p : List Nat), parseURL s = some u →
      splitFirst lightningSuffix u.host = some (p, []) →
      normalizeToMyDomain s = serializeURL ⟨u.scheme, p ++ mySuffix, u.tail⟩) :=
  ⟨fun h => normalize_eq_none h,
   fun _ hp hend => normalize_not_ends hp hend,
   fun _ _ hp hsp => normalize_rewrite hp hsp⟩

/-- C4 counterexample: `"https://example.com"` is a syntactically valid URL whose
hostname does not end with the Lightning suffix, yet `normalizeToMyDomain` does
not return it unchanged — serialization appends the root path slash. -/
theorem claim_C4_counterexample :
    parseURL (codes "https://example.com") =
      some ⟨codes "https", codes "example.com", [47]⟩ ∧
    endsWith lightningSuffix (codes "example.com") = false ∧
    normalizeToMyDomain (codes "https://example.com") ≠ codes "https://example.com" := by
  decide

/-- C4 witness: the amended theorem applied at a concrete Lightning URL. -/
theorem claim_C4_witness :
    normalizeToMyDomain (codes "https://foo.develop.lightning.force.com/") =
      codes "https://foo.develop.my.salesforce.com/" := by
  have h := (claim_C4_normalize (codes "https://foo.develop.lightning.force.com/")).2.2
    ⟨codes "https", codes "foo.develop.lightning.force.com", [47]⟩ (codes "foo.develop")
    (by decide) (by decide)
  rw [h]
  decide

/-- C5 (amended): `normalizeToMyDomain` is idempotent on every input except those
parsing to a URL whose hostname ends with the Lightning suffix while also
containing an earlier occurrence of it (there `String.prototype.replace`
rewrites the earlier occurrence, leaving a hostname that still ends with the
suffix and is rewritten again by a second pass).  In particular it is idempotent
on all malformed strings and on every hostname containing the suffix at most
once. -/
theorem claim_C5_normalize_idem (s : List Nat) (h : idemSafe s = true) :
    normalizeToMyDomain (normalizeToMyDomain s) = normalizeToMyDomain s := by
  unfold idemSafe at h
  rcases hp : parseURL s with _ | u
  · rw [normalize_eq_none hp, normalize_eq_none hp]
  · rw [hp] at h
    have h2 : (!(endsWith lightningSuffix u.host) || terminalOnly u.host) = true := h
    have hc := parseURL_canon hp
    by_cases hend : endsWith lightningSuffix u.host = true
    · have h3 : terminalOnly u.host = true := by
        rw [hend] at h2
        simpa using h2
      have hsome := @splitFirst_isSome lightningSuffix u.host (by decide) (endsWith_iff.mp hend)
      rcases hsp : splitFirst lightningSuffix u.host with _ | ⟨p, q⟩
      · rw [hsp] at hsome
        simp at hsome
      · have hq : q = [] := by
          unfold terminalOnly at h3
          rw [hsp] at h3
          simpa using h3
        subst hq
        have hhost : u.host = p ++ lightningSuffix := by simpa using splitFirst_eq hsp
        have hcanon : Canon ⟨u.scheme, p ++ mySuffix, u.tail⟩ := canon_rewrite hc hhost
        have hre := parseURL_serializeURL hcanon
        rw [normalize_rewrite hp hsp, normalize_not_ends hre (not_endsWith_lightning p)]
    · have hendf : endsWith lightningSuffix u.host = false := by simpa using hend
      rw [normalize_not_ends hp hendf,
        normalize_not_ends (parseURL_serializeURL hc) hendf]

/-- C5 counterexample: on a hostname with two occurrences of the Lightning
suffix, the first pass rewrites the earlier occurrence and a second pass
rewrites again, so `normalize (normalize x) ≠ normalize x`. -/
theorem claim_C5_counterexample :
    normalizeToMyDomain (normalizeToMyDomain
        (codes "https://x.lightning.force.com.lightning.force.com/")) ≠
      normalizeToMyDomain (codes "https://x.lightning.force.com.lightning.force.com/") := by
  decide

/-- C5 witness: idempotence at a concrete Lightning URL, and at a hostname that
contains the Lightning suffix once without ending with it (no rewrite happens,
idempotence still covered). -/
theorem claim_C5_witness :
    (normalizeToMyDomain (normalizeToMyDomain
        (codes "https://foo.develop.lightning.force.com/")) =
      normalizeToMyDomain (codes "https://foo.develop.lightning.force.com/")) ∧
    (normalizeToMyDomain (normalizeToMyDomain (codes "https://a.lightning.force.com.org/")) =
      normalizeToMyDomain (codes "https://a.lightning.force.com.org/")) :=
  ⟨claim_C5_normalize_idem (codes "https://foo.develop.lightning.force.com/") (by decide),
   claim_C5_normalize_idem (codes "https://a.lightning.force.com.org/") (by decide)⟩

/-- C6 (amended): for every accepted (non-empty) input, the stored `orgOrigin` is
exactly the domain-normalized form of the input with one trailing slash removed;
it is fixed at construction and every `baseUrl` embeds exactly it.  It is NOT
slash-free — for any parseable input the URL serializer appends the root-path
slash — and its scheme is whatever the input carried, not forced to `https`. -/
theorem claim_C6_origin (s : List Nat) (h : s ≠ []) :
    mkSalesforceAPI s = .ok ⟨normalizeToMyDomain (stripTrailingSlash s), codes "v59.0"⟩ ∧
    ∀ api : SalesforceAPI, mkSalesforceAPI s = .ok api →
      baseUrl api = normalizeToMyDomain (stripTrailingSlash s) ++ codes "/services/data/v59.0" := by
  refine ⟨by simp [mkSalesforceAPI, h], ?_⟩
  intro api hapi
  simp only [mkSalesforceAPI, h, if_false, Except.ok.injEq] at hapi
  subst hapi
  show normalizeToMyDomain (stripTrailingSlash s) ++ codes "/services/data/" ++ codes "v59.0" = _
  rw [List.append_assoc]
  congr 1

/-- C6 counterexample: with input `"https://acme.my.salesforce.com"` the stored
origin is `"https://acme.my.salesforce.com/"` — it ends with a slash (the
constructor strips one trailing slash but the serializer re-appends it); and an
`http://` input keeps its `http` scheme, so neither claimed invariant holds. -/
theorem claim_C6_counterexample :
    (mkSalesforceAPI (codes "https://acme.my.salesforce.com")).map SalesforceAPI.orgOrigin =
      .ok (codes "https://acme.my.salesforce.com/") ∧
    (codes "https://acme.my.salesforce.com/").getLast? = some 47 ∧
    (mkSalesforceAPI (codes "http://acme.my.salesforce.com")).map SalesforceAPI.orgOrigin =
      .ok (codes "http://acme.my.salesforce.com/") := by
  decide

/-- C6 witness: the amended theorem applied at a concrete Lightning origin. -/
theorem claim_C6_witness :
    mkSalesforceAPI (codes "https://acme.lightning.force.com") =
      .ok ⟨codes "https://acme.my.salesforce.com/", codes "v59.0"⟩ := by
  have h := (claim_C6_origin (codes "https://acme.lightning.force.com") (by decide)).1
  rw [h]
  decide

/-- C9: the formatter is a pure total lookup: `(string, length=80)` renders as
`Text(80)`, `(double, precision=10, scale=2)` renders as `Number(10,2)`, and
every unrecognized non-empty type code (such as `"foo"`) passes through
verbatim, while an empty/missing code renders as `Unknown`. -/
theorem claim_C9_formatFieldType :
    formatFieldType (codes "string") 80 0 0 = codes "Text(80)" ∧
    formatFieldType (codes "double") 0 10 2 = codes "Number(10,2)" ∧
    (∀ (t : List Nat) (l p sc : Nat), t ∉ knownTypeCodes → t ≠ [] →
      formatFieldType t l p sc = t) ∧
    (∀ l p sc : Nat, formatFieldType [] l p sc = codes "Unknown") := by
  refine ⟨by decide, by decide, ?_, by intro l p sc; rfl⟩
  intro t l p sc hmem hne
  simp only [knownTypeCodes, List.mem_cons, List.not_mem_nil, or_false, not_or] at hmem
  obtain ⟨h1, h2, h3, h4, h5, h6, h7, h8, h9, h10, h11, h12⟩ := hmem
  simp only [formatFieldType, if_neg h1, if_neg h2, if_neg h3, if_neg h4, if_neg h5,
    if_neg h6, if_neg h7, if_neg h8, if_neg h9, if_neg h10, if_neg h11, if_neg h12,
    if_pos hne]

/-- C9 witness: the pass-through branch at the unrecognized code `"foo"`. -/
theorem claim_C9_witness : formatFieldType (codes "foo") 3 4 5 = codes "foo" :=
  claim_C9_formatFieldType.2.2.1 (codes "foo") 3 4 5 (by decide) (by decide)

theorem queryLoop_chain [DecidableEq α] (fetch : List Nat → QueryPage α)
    (rest : List (List Nat × QueryPage α)) :
    ∀ (p : QueryPage α) (acc : List α), chainB fetch p rest = true →
      queryLoop fetch acc p.nextRecordsUrl rest.length =
        some (acc ++ (rest.map fun x => x.2.records.getD []).flatten) := by
  induction rest with
  | nil =>
    intro p acc hch
    simp only [chainB, Bool.or_eq_true, decide_eq_true_eq] at hch
    rcases hch with hn | hn <;> rw [hn] <;> simp [queryLoop]
  | cons link rest ih =>
    intro p acc hch
    obtain ⟨u, q⟩ := link
    simp only [chainB, Bool.and_eq_true, decide_eq_true_eq] at hch
    obtain ⟨⟨⟨hnext, hu⟩, hfetch⟩, hrest⟩ := hch
    rw [hnext]
    rcases hu' : u with _ | ⟨c, url⟩
    · exact absurd hu' hu
    · simp only [List.length_cons, queryLoop]
      rw [← hu', hfetch]
      have := ih q (acc ++ q.records.getD []) hrest
      rw [this]
      simp

/-- C1: for every SOQL text and every terminating chain of response pages,
`query` issues the initial request at the query resource with the URL-encoded
text, follows each page's `nextRecordsUrl` (passed through the Domain
Normalizer) until a page carries no (or an empty) `nextRecordsUrl`, and returns
the concatenation of all pages' record sequences in server order. -/
theorem claim_C1_query {α : Type} [DecidableEq α] (fetch : List Nat → QueryPage α)
    (soql : List Nat) (rest : List (List Nat × QueryPage α))
    (hchain : chainB fetch (fetch (queryPath soql)) rest = true) :
    query fetch soql rest.length =
      some ((fetch (queryPath soql)).records.getD [] ++
        (rest.map fun x => x.2.records.getD []).flatten) :=
  queryLoop_chain fetch rest (fetch (queryPath soql))
    ((fetch (queryPath soql)).records.getD []) hchain

/-- C1 witness: the 2-page mock response concatenates to `[1, 2, 3]`. -/
theorem claim_C1_witness :
    query twoPageFetch (codes "SELECT Id FROM Account") 1 = some [1, 2, 3] := by
  have h := claim_C1_query twoPageFetch (codes "SELECT Id FROM Account")
    [(codes "/services/data/v59.0/query/01g-2000", ⟨some [3], none⟩)] (by decide)
  exact h.trans (by decide)

/-- C2: status 401 yields the distinct authentication-expired error (never of
the generic `HTTP <status>` form); every other non-2xx status yields the single
object body's non-empty `message`, an array body's messages joined with `", "`,
or `HTTP <status>` when the body is unparseable; and status 204 yields a
successful null payload, not an error or an empty object. -/
theorem claim_C2_interpretResponse :
    (∀ b d, interpretResponse 401 b d = .error authExpiredMsg) ∧
    (∀ n : Nat, authExpiredMsg ≠ codes "HTTP " ++ natCodes n) ∧
    (∀ s b m, ¬ (200 ≤ s ∧ s ≤ 299) → s ≠ 401 → jsonMessage b = some m → m ≠ [] →
      interpretResponse s (some b) .other = .error m) ∧
    (∀ s es d, ¬ (200 ≤ s ∧ s ≤ 299) → s ≠ 401 →
      interpretResponse s (some (.arr es)) d = .error (joinMessages es)) ∧
    (∀ s d, ¬ (200 ≤ s ∧ s ≤ 299) → s ≠ 401 →
      interpretResponse s none d = .error (codes "HTTP " ++ natCodes s)) ∧
    (∀ b d, interpretResponse 204 b d = .ok none) := by
  refine ⟨?_, ?_, ?_, ?_, ?_, ?_⟩
  · intro b d
    simp [interpretResponse]
  · intro n h
    have h0 := congrArg List.head? h
    rw [show authExpiredMsg.head? = some 85 from rfl,
      show (codes "HTTP " ++ natCodes n).head? = some 72 from rfl] at h0
    exact absurd h0 (by simp)
  · intro s b m hok h401 hmsg hne
    rcases b with bm | es | _
    · simp only [interpretResponse, if_neg h401, hok, not_false_eq_true, if_true,
        Except.error.injEq]
      simp only [jsonMessage] at hmsg
      rw [hmsg] at *
      simp [jsonMessage, hne]
    · exact absurd hmsg (by simp [jsonMessage])
    · exact absurd hmsg (by simp [jsonMessage])
  · intro s es d hok h401
    simp [interpretResponse, if_neg h401, hok]
  · intro s d hok h401
    simp [interpretResponse, if_neg h401, hok]
  · intro b d
    simp [interpretResponse]

/-- C2 witness: the theorem's clauses applied at status 500 with an unparseable
body and at a single-object body carrying a message. -/
theorem claim_C2_witness :
    interpretResponse 500 none .other = .error (codes "HTTP 500") ∧
    interpretResponse 500 (some (.obj (some (codes "boom")))) .other =
      .error (codes "boom") := by
  constructor
  · have h := claim_C2_interpretResponse.2.2.2.2.1 500 Json.other (by omega) (by omega)
    exact h.trans (by rfl)
  · exact claim_C2_interpretResponse.2.2.1 500 (.obj (some (codes "boom"))) (codes "boom")
      (by omega) (by omega) (by decide) (by decide)

/-- C3 (failing input): the store answers the leading-dot lookup — the lookup
attempt (b) of the claim — with the cookie value `"00Dabc"`, yet
`getSessionCookie` returns `none`, because the loop body ignores its loop
variable and queries the exact host both times. -/
theorem claim_C3_dot_lookup_never_queried :
    dotOnlyCookieAPI.get (codes "https://" ++ (codes "." ++ codes "acme.my.salesforce.com"))
        sidName = .ok (some ⟨codes "00Dabc"⟩) ∧
    getSessionCookie dotOnlyCookieAPI (codes "acme.my.salesforce.com") = none := by
  constructor
  · rfl
  · rfl

/-- C7: the callback settles the promise on EVERY possible invocation — no event
maps to `pending`, so a caller is never left awaiting once the callback fires
(and, the callback being a function of the event, each invocation settles
exactly once); in particular every disconnect event (privileged side unreachable
or terminated before responding) rejects with a message — `lastError.message`
itself, or the descriptive `"No response from background worker."` — rather than
hanging; and the listener answers every settled proxy outcome. -/
theorem claim_C7_relay_settles :
    (∀ e : CallbackEvent, requestCallback e ≠ .pending) ∧
    (∀ e : CallbackEvent, isDisconnect e = true → ∃ m, requestCallback e = .rejected m) ∧
    (∀ msg, requestCallback (.lastErr msg) = .rejected msg) ∧
    (requestCallback (.delivered none) =
      .rejected (codes "No response from background worker.")) ∧
    (∀ d, listenerRespond (.ok d) = .success d) ∧
    (∀ m, listenerRespond (.error m) = .failure (some m)) := by
  refine ⟨?_, ?_, fun _ => rfl, rfl, fun _ => rfl, fun _ => rfl⟩
  · intro e
    rcases e with m | r
    · simp [requestCallback]
    · rcases r with _ | pr
      · simp [requestCallback]
      · rcases pr with d | err
        · simp [requestCallback]
        · rcases err with _ | m
          · simp [requestCallback]
          · simp only [requestCallback]
            split <;> simp
  · intro e he
    rcases e with m | r
    · exact ⟨m, rfl⟩
    · rcases r with _ | pr
      · exact ⟨codes "No response from background worker.", rfl⟩
      · simp [isDisconnect] at he

/-- C7 witness: the disconnect clause applied at a concrete `lastError` event. -/
theorem claim_C7_witness :
    ∃ m, requestCallback
      (.lastErr (codes "The message port closed before a response was received.")) =
        .rejected m :=
  claim_C7_relay_settles.2.1
    (.lastErr (codes "The message port closed before a response was received.")) rfl

/-- C8 counterexample: with the first describe succeeding and the second
throwing, the scan does NOT yield results for the remaining items — it aborts
with the error and yields no results at all, because the describes run in a
single try/catch rather than per item. -/
theorem claim_C8_counterexample :
    failingDescribe (codes "SBQQ__QuoteLine__c") = .ok ⟨[1]⟩ ∧
    runScan failingDescribe (fun a b => a ++ b) = .error (codes "boom") := by
  constructor <;> rfl

/-- C8 (amended): a failure of the scan's second describe aborts the entire
`runScan` with that error (no partial results), while the deliberate
partial-failure tolerance lives in the quote-preview fetch block: each of the
four parallel fetches catches its own failure and contributes its fallback
(empty list for the rule fetches, the stub for the pricebook fetch) while the
other fetches' results are kept and the batch continues. -/
theorem claim_C8_batch_behavior {α β : Type}
    (describe : List Nat → Except (List Nat) (DescribeResult α))
    (compute : List α → List α → List β) (ql : DescribeResult α) (m : List Nat)
    (hql : describe (codes "SBQQ__QuoteLine__c") = .ok ql)
    (holi : describe (codes "OpportunityLineItem") = .error m) :
    runScan describe compute = .error m ∧
    ∀ (v1 stub : List α) (v3 v4 : List β),
      buildQuotePreviewFetches (.ok v1) stub (.error m) (.ok v3) (.ok v4) =
        (v1, [], v3, v4) := by
  constructor
  · rw [runScan, hql, holi]
    rfl
  · intro v1 stub v3 v4
    rfl

/-- C8 witness: the amended theorem at a concrete failing oracle. -/
theorem claim_C8_witness :
    runScan failingDescribe (fun a b => a ++ b) = .error (codes "boom") ∧
    buildQuotePreviewFetches (.ok [10]) [99] (.error (codes "boom")) (.ok [30]) (.ok [40]) =
      ([10], ([] : List Nat), [30], [40]) := by
  obtain ⟨h1, h2⟩ := claim_C8_batch_behavior failingDescribe (fun a b => a ++ b)
    ⟨[1]⟩ (codes "boom") (by rfl) (by rfl)
  exact ⟨h1, h2 [10] [99] [30] [40]⟩

/-- Every decoding step of the loop emits a code point, so a successful decode
of a non-empty input is non-empty. -/
theorem decodeURILoop_ne_nil {fuel : Nat} {s d : List Nat} (hs : s ≠ [])
    (h : decodeURILoop fuel s = some d) : d ≠ [] := by
  cases s with
  | nil => exact absurd rfl hs
  | cons c cs =>
    cases fuel with
    | zero => exact Option.noConfusion h
    | succ fuel =>
      unfold decodeURILoop at h
      repeat split at h
      all_goals
        first
          | exact Option.noConfusion h
          | (obtain ⟨x, _, hx⟩ := Option.map_eq_some'.mp h
             rw [← hx]
             exact List.cons_ne_nil _ _)

/-- A successful strict decode of a non-empty input is non-empty. -/
theorem decodeURIComponent_ne_nil {s d : List Nat} (hs : s ≠ [])
    (h : decodeURIComponent s = some d) : d ≠ [] :=
  decodeURILoop_ne_nil hs h

/-- C10 (amended): a URL without an `org` parameter (or with an empty one)
yields `null` — no throw, no client; a non-empty `org` value that URL-decodes
successfully yields the client constructed from the decoded value; a non-empty
`org` value with a malformed percent-escape makes `decodeURIComponent` throw a
`URIError` instead of returning a client; and constructing a client directly
from an empty origin throws. -/
theorem claim_C10_getAPIFromUrl (search : List Nat) :
    (getParam (codes "org") search = none → getAPIFromUrl search = .ok none) ∧
    (getParam (codes "org") search = some [] → getAPIFromUrl search = .ok none) ∧
    (∀ v d, getParam (codes "org") search = some v → v ≠ [] →
      decodeURIComponent v = some d →
      getAPIFromUrl search =
        .ok (some ⟨normalizeToMyDomain (stripTrailingSlash d), codes "v59.0"⟩)) ∧
    (∀ v, getParam (codes "org") search = some v → v ≠ [] →
      decodeURIComponent v = none →
      getAPIFromUrl search = .error (codes "URIError: URI malformed")) ∧
    mkSalesforceAPI [] = .error (codes "orgOrigin is required") := by
  refine ⟨?_, ?_, ?_, ?_, rfl⟩
  · intro h
    unfold getAPIFromUrl
    rw [h]
  · intro h
    unfold getAPIFromUrl
    rw [h]
    rfl
  · intro v d hv hne hd
    have hdne : d ≠ [] := decodeURIComponent_ne_nil hne hd
    unfold getAPIFromUrl
    rw [hv]
    simp only [if_neg hne]
    rw [hd]
    simp only [mkSalesforceAPI, if_neg hdne]
    rfl
  · intro v hv hne hd
    unfold getAPIFromUrl
    rw [hv]
    simp only [if_neg hne]
    rw [hd]

/-- C10 counterexample: the tool-page URL `?org=%` carries a non-empty `org`
parameter (URLSearchParams leniently yields the value `"%"`), yet
`getAPIFromUrl` does not return a client — `decodeURIComponent("%")` throws a
`URIError`. -/
theorem claim_C10_counterexample :
    getParam (codes "org") (codes "?org=%") = some (codes "%") ∧
    getAPIFromUrl (codes "?org=%") = .error (codes "URIError: URI malformed") := by
  constructor <;> rfl

/-- C10 witness: the amended theorem at a percent-encoded origin parameter. -/
theorem claim_C10_witness :
    getAPIFromUrl (codes "?org=https%3A%2F%2Facme.my.salesforce.com") =
      .ok (some ⟨codes "https://acme.my.salesforce.com/", codes "v59.0"⟩) := by
  have h := (claim_C10_getAPIFromUrl (codes "?org=https%3A%2F%2Facme.my.salesforce.com")).2.2.1
    (codes "https://acme.my.salesforce.com") (codes "https://acme.my.salesforce.com")
    (by rfl) (by decide) (by rfl)
  exact h.trans (by rfl)

end CPQ

